import Mathlib

/- Verification development for the OCR bill pipeline of the skanda repository.
   The definitions below are a shallow embedding of `ocr_utils.py`,
   `vendor_ocr_utils.py` and the OCR verification routes of `app.py`.
   Python strings are modelled as `String` / `List Char` (the ASCII fragment of
   Python's case/whitespace semantics, which is all the claims exercise),
   Python floats as `ℚ`, Python `None`/missing dict keys as `Option`,
   and `datetime.date` as a validated triple of naturals. -/

namespace Skanda

/-- Python regex class \s (ASCII fragment: space, tab, newline, CR, VT, FF). -/
def pySpace (c : Char) : Bool :=
  c = ' ' || c = '\t' || c = '\n' || c = '\r' || c = '\x0b' || c = '\x0c'

/-- Python regex word character \w (ASCII fragment), used for word boundaries. -/
def isWordChar (c : Char) : Bool :=
  c.isAlphanum || c = '_'

/-- Regular-expression ASTs for the patterns appearing in the source.
    `chr` is an exact character, `cls` a character class, `wb` the \b
    word-boundary assertion, `grp` a capture group.  Bounded repetitions
    `x\x7bm,n\x7d` are expanded with `repRange` below. -/
inductive RE where
  | eps
  | chr (c : Char)
  | cls (p : Char → Bool)
  | wb
  | seq (a b : RE)
  | alt (a b : RE)
  | opt (a : RE)
  | star (a : RE)
  | grp (a : RE)

/-- Result of a match attempt: character preceding the rest of the input,
    captured groups in order, and the remaining input after the match. -/
abbrev MRes := Option Char × List (List Char) × List Char

/-- Backtracking matcher in continuation-passing style, mirroring Python's
    `re` semantics for the fragment used by the source: ordered alternation,
    greedy `star`/`opt` with backtracking, leftmost match.  `prev` is the
    character just before the current position (for \b).  Fuel is structural;
    each nesting level costs one unit and each `star` iteration must consume
    input, so `length + 600` fuel at the top level is never exhausted for the
    patterns of this file. -/
def mrun : Nat → RE → Option Char → List Char → List (List Char) →
    (Option Char → List Char → List (List Char) → Option MRes) → Option MRes
  | 0, _, _, _, _, _ => none
  | fuel + 1, r, prev, s, gs, k =>
    match r with
    | .eps => k prev s gs
    | .chr c =>
      match s with
      | [] => none
      | x :: xs => if x = c then k (some x) xs gs else none
    | .cls p =>
      match s with
      | [] => none
      | x :: xs => if p x then k (some x) xs gs else none
    | .wb =>
      let pw : Bool := match prev with
        | none => false
        | some c => isWordChar c
      let nw : Bool := match s with
        | [] => false
        | x :: _ => isWordChar x
      if pw ≠ nw then k prev s gs else none
    | .seq a b => mrun fuel a prev s gs (fun p1 s1 g1 => mrun fuel b p1 s1 g1 k)
    | .alt a b =>
      match mrun fuel a prev s gs k with
      | some res => some res
      | none => mrun fuel b prev s gs k
    | .opt a =>
      match mrun fuel a prev s gs k with
      | some res => some res
      | none => k prev s gs
    | .star a =>
      match mrun fuel a prev s gs (fun p1 s1 g1 =>
          if s1.length < s.length then mrun fuel (.star a) p1 s1 g1 k else none) with
      | some res => some res
      | none => k prev s gs
    | .grp a =>
      mrun fuel a prev s gs (fun p1 s1 g1 => k p1 s1 (g1 ++ [s.take (s.length - s1.length)]))

/-- Attempt to match `r` at the current position only. -/
def matchAt (r : RE) (prev : Option Char) (s : List Char) : Option MRes :=
  mrun (s.length + 600) r prev s [] (fun p rest gs => some (p, gs, rest))

/-- Scan left to right for the first position where `r` matches (re.search). -/
def searchAux : RE → Option Char → List Char → Option MRes
  | r, prev, s =>
    match matchAt r prev s with
    | some res => some res
    | none =>
      match s with
      | [] => none
      | c :: rest => searchAux r (some c) rest

/-- re.search: groups of the leftmost match, if any. -/
def reSearch (r : RE) (s : List Char) : Option (List (List Char)) :=
  (searchAux r none s).map (fun res => res.2.1)

/-- Non-overlapping left-to-right matches (re.finditer / re.findall),
    advancing past each match, or by one character on failure or on an
    empty match. -/
def finditAux : Nat → RE → Option Char → List Char → List (List (List Char))
  | 0, _, _, _ => []
  | fuel + 1, r, prev, s =>
    match matchAt r prev s with
    | some (p1, gs, rest) =>
      if rest.length < s.length then gs :: finditAux fuel r p1 rest
      else
        match s with
        | [] => [gs]
        | c :: tail => gs :: finditAux fuel r (some c) tail
    | none =>
      match s with
      | [] => []
      | c :: tail => finditAux fuel r (some c) tail

/-- re.finditer: group lists of all non-overlapping matches. -/
def reFinditer (r : RE) (s : List Char) : List (List (List Char)) :=
  finditAux (s.length + 1) r none s

/-- Literal string pattern (case-sensitive). -/
def lit : List Char → RE
  | [] => .eps
  | c :: cs => .seq (.chr c) (lit cs)

/-- Case-insensitive single character (re.IGNORECASE). -/
def charCI (c : Char) : RE :=
  .cls (fun x => x.toLower = c.toLower)

/-- Case-insensitive literal string pattern. -/
def litCI : List Char → RE
  | [] => .eps
  | c :: cs => .seq (charCI c) (litCI cs)

/-- Ordered alternation of a list of patterns. -/
def altList : List RE → RE
  | [] => .eps
  | [r] => r
  | r :: rs => .alt r (altList rs)

/-- One or more repetitions, greedy (regex +). -/
def rplus (r : RE) : RE := .seq r (.star r)

/-- Up to `n` repetitions, greedy. -/
def repUpTo (r : RE) : Nat → RE
  | 0 => .eps
  | n + 1 => .opt (.seq r (repUpTo r n))

/-- Between `lo` and `hi` repetitions, greedy (regex bounded repetition). -/
def repRange (r : RE) (lo hi : Nat) : RE :=
  (List.range lo).foldr (fun _ acc => .seq r acc) (repUpTo r (hi - lo))

/-- Digit class \d (ASCII). -/
def digitRE : RE := .cls Char.isDigit

/-- Whitespace class \s. -/
def spaceRE : RE := .cls pySpace

/-- Python str.strip with an explicit character set. -/
def pyStripChars (p : Char → Bool) (cs : List Char) : List Char :=
  ((cs.dropWhile p).reverse.dropWhile p).reverse

/-- Python str.strip() (whitespace from both ends). -/
def pyStrip (cs : List Char) : List Char := pyStripChars pySpace cs

/-- Python str.upper() (ASCII fragment). -/
def pyUpper (cs : List Char) : List Char := cs.map Char.toUpper

/-- Python str.lower() (ASCII fragment). -/
def pyLowerL (cs : List Char) : List Char := cs.map Char.toLower

/-- Python str.split(sep) for a single-character separator; keeps empty parts. -/
def splitOnChar (sep : Char) : List Char → List (List Char)
  | [] => [[]]
  | c :: rest =>
    match splitOnChar sep rest with
    | [] => if c = sep then [[], []] else [[c]]
    | h :: t => if c = sep then [] :: h :: t else (c :: h) :: t

/-- Does `hay` start with `needle`. -/
def leadsWith : List Char → List Char → Bool
  | [], _ => true
  | _ :: _, [] => false
  | a :: as, b :: bs => a = b && leadsWith as bs

/-- Python substring containment `needle in hay`. -/
def hasSub (hay needle : List Char) : Bool :=
  match hay with
  | [] => leadsWith needle []
  | _ :: t => leadsWith needle hay || hasSub t needle

/-- Python `str.split(kw, 1)`: the part after the first occurrence of `kw`
    (only called when `kw` occurs). -/
def afterFirst (hay kw : List Char) : List Char :=
  match hay with
  | [] => []
  | _ :: t => if leadsWith kw hay then hay.drop kw.length else afterFirst t kw

/-- Value of a digit string (int(...) for the all-digit captures). -/
def digitsToNat (cs : List Char) : Nat :=
  cs.foldl (fun n c => 10 * n + (c.toNat - 48)) 0

/-- Python float(...) on a capture of shape digits [ '.' digits ].
    (floats are modelled as exact rationals). -/
def ratOfChars (cs : List Char) : ℚ :=
  match cs.drop (cs.takeWhile Char.isDigit).length with
  | [] => (digitsToNat (cs.takeWhile Char.isDigit) : ℚ)
  | _ :: frac =>
    (digitsToNat (cs.takeWhile Char.isDigit) : ℚ)
      + (digitsToNat frac : ℚ) / ((10 : ℚ) ^ frac.length)

/- ===== ocr_utils.py : Field Extractor ===== -/

/-- Character class [A-Z0-9 dash slash] under re.IGNORECASE. -/
def billNumChar (c : Char) : Bool := c.isAlpha || c.isDigit || c = '-' || c = '/'

/-- Character class [\s:]. -/
def spColon (c : Char) : Bool := pySpace c || c = ':'

/-- Character class [\.\s:]. -/
def dotSpColon (c : Char) : Bool := c = '.' || pySpace c || c = ':'

/-- Character class dash-or-slash. -/
def slashDash (c : Char) : Bool := c = '-' || c = '/'

/-- Pattern bill\s*(?:number|no|#|num)[\s:]*([A-Z0-9 dash slash]+). -/
def bnPat1 : RE :=
  .seq (litCI "bill".toList) (.seq (.star spaceRE)
    (.seq (altList [litCI "number".toList, litCI "no".toList, lit "#".toList, litCI "num".toList])
      (.seq (.star (.cls spColon)) (.grp (rplus (.cls billNumChar))))))

/-- Pattern invoice\s*(?:number|no|#|num)[\s:]*([A-Z0-9 dash slash]+). -/
def bnPat2 : RE :=
  .seq (litCI "invoice".toList) (.seq (.star spaceRE)
    (.seq (altList [litCI "number".toList, litCI "no".toList, lit "#".toList, litCI "num".toList])
      (.seq (.star (.cls spColon)) (.grp (rplus (.cls billNumChar))))))

/-- Pattern bill[\s:]+([A-Z0-9 dash slash]+). -/
def bnPat3 : RE :=
  .seq (litCI "bill".toList) (.seq (rplus (.cls spColon)) (.grp (rplus (.cls billNumChar))))

/-- Pattern invoice[\s:]+([A-Z0-9 dash slash]+). -/
def bnPat4 : RE :=
  .seq (litCI "invoice".toList) (.seq (rplus (.cls spColon)) (.grp (rplus (.cls billNumChar))))

/-- Pattern no[\.\s:]+([A-Z0-9 dash slash]+). -/
def bnPat5 : RE :=
  .seq (litCI "no".toList) (.seq (rplus (.cls dotSpColon)) (.grp (rplus (.cls billNumChar))))

/-- Standalone pattern \b([A-Z]\x7b1,5\x7dan optional dash-or-slash\d\x7b2,10\x7d)\b (IGNORECASE). -/
def bnStandalone : RE :=
  .seq .wb (.seq (.grp (.seq (repRange (.cls Char.isAlpha) 1 5)
    (.seq (.opt (.cls slashDash)) (repRange digitRE 2 10)))) .wb)

/-- First pattern of an ordered list to match (pattern-list priority). -/
def searchFirst : List RE → List Char → Option (List (List Char))
  | [], _ => none
  | p :: ps, s =>
    match reSearch p s with
    | some gs => some gs
    | none => searchFirst ps s

/-- First captured group of a match. -/
def firstGroup (gs : List (List Char)) : List Char := gs.headD []

/-- ocr_utils.parse_bill_number: labeled patterns over the lowered text, then
    the standalone letters+digits token over the original text; the winning
    capture is stripped and upper-cased. -/
def parse_bill_number (text : String) : Option String :=
  let cs := text.toList
  match searchFirst [bnPat1, bnPat2, bnPat3, bnPat4, bnPat5] (pyLowerL cs) with
  | some gs => some (String.mk (pyUpper (pyStrip (firstGroup gs))))
  | none =>
    match reSearch bnStandalone cs with
    | some gs => some (String.mk (pyUpper (pyStrip (firstGroup gs))))
    | none => none

/-- Character class [₹rs\.] under re.IGNORECASE. -/
def rupeeCls (c : Char) : Bool := c = '₹' || c.toLower = 'r' || c.toLower = 's' || c = '.'

/-- Capture (\d+\.?\d*). -/
def amountNum : RE :=
  .grp (.seq (rplus digitRE) (.seq (.opt (.chr '.')) (.star digitRE)))

/-- Alternation (?:total|amount|grand\s*total|payable|amount\s*due). -/
def amtLabelA : RE :=
  altList [litCI "total".toList, litCI "amount".toList,
    .seq (litCI "grand".toList) (.seq (.star spaceRE) (litCI "total".toList)),
    litCI "payable".toList,
    .seq (litCI "amount".toList) (.seq (.star spaceRE) (litCI "due".toList))]

/-- Alternation (?:total|amount|grand\s*total|payable). -/
def amtLabelB : RE :=
  altList [litCI "total".toList, litCI "amount".toList,
    .seq (litCI "grand".toList) (.seq (.star spaceRE) (litCI "total".toList)),
    litCI "payable".toList]

/-- Pattern (?:total|amount|grand\s*total|payable|amount\s*due)[\s:]*[₹rs\.]*\s*(\d+\.?\d*). -/
def amtPatA : RE :=
  .seq amtLabelA (.seq (.star (.cls spColon)) (.seq (.star (.cls rupeeCls))
    (.seq (.star spaceRE) amountNum)))

/-- Pattern [₹rs\.]*\s*(\d+\.?\d*)\s*(?:total|amount|grand\s*total|payable). -/
def amtPatB : RE :=
  .seq (.star (.cls rupeeCls)) (.seq (.star spaceRE)
    (.seq amountNum (.seq (.star spaceRE) amtLabelB)))

/-- Pattern final\s*amount[\s:]*[₹rs\.]*\s*(\d+\.?\d*). -/
def amtPatC : RE :=
  .seq (litCI "final".toList) (.seq (.star spaceRE) (.seq (litCI "amount".toList)
    (.seq (.star (.cls spColon)) (.seq (.star (.cls rupeeCls))
      (.seq (.star spaceRE) amountNum)))))

/-- Currency pattern [₹$]?\s*(\d\x7b1,10\x7d(?:\.\d\x7b2\x7d)?). -/
def currencyPat : RE :=
  .seq (.opt (.cls (fun c => c = '₹' || c = '$'))) (.seq (.star spaceRE)
    (.grp (.seq (repRange digitRE 1 10) (.opt (.seq (.chr '.') (repRange digitRE 2 2))))))

/-- All captures of the three labeled amount patterns, in pattern order then
    text order, over the comma-stripped lowered text. -/
def labeled_amount_tokens (text : String) : List (List Char) :=
  let lower := pyLowerL (text.toList.filter (fun c => c ≠ ','))
  (([amtPatA, amtPatB, amtPatC].map (fun p => (reFinditer p lower).map firstGroup))).flatten

/-- All captures of the currency pattern over the comma-stripped text. -/
def currency_amount_tokens (text : String) : List (List Char) :=
  (reFinditer currencyPat (text.toList.filter (fun c => c ≠ ','))).map firstGroup

/-- ocr_utils.parse_amount candidate list: every labeled capture is kept
    unconditionally; currency captures only when positive. -/
def amounts_found (text : String) : List ℚ :=
  (labeled_amount_tokens text).map ratOfChars
    ++ ((currency_amount_tokens text).map ratOfChars).filter (fun a => decide (0 < a))

/-- ocr_utils.parse_amount: max of all candidates, None when there are none. -/
def parse_amount (text : String) : Option ℚ :=
  match amounts_found text with
  | [] => none
  | x :: xs => some (xs.foldl max x)

/-- Python datetime.date values (construction is validated by `mkDate`). -/
structure PDate where
  year : Nat
  month : Nat
  day : Nat
deriving DecidableEq

/-- Gregorian leap year, as in Python's datetime. -/
def isLeap (y : Nat) : Bool := y % 4 = 0 && (y % 100 ≠ 0 || y % 400 = 0)

/-- Days in a month. -/
def daysInMonth (y m : Nat) : Nat :=
  if m = 2 then (if isLeap y then 29 else 28)
  else if m = 4 ∨ m = 6 ∨ m = 9 ∨ m = 11 then 30
  else 31

/-- datetime(year, month, day): some date when valid, none when the
    constructor would raise ValueError. -/
def mkDate (y m d : Nat) : Option PDate :=
  if 1 ≤ y ∧ y ≤ 9999 ∧ 1 ≤ m ∧ m ≤ 12 ∧ 1 ≤ d ∧ d ≤ daysInMonth y m then
    some ⟨y, m, d⟩
  else none

/-- The 3-group handler of parse_date: day, month, year := int(g1), int(g2),
    int(g3); a year below 100 gets 2000 added; then datetime(year, month, day). -/
def dmy_to_date (d m y : Nat) : Option PDate :=
  let year := if y < 100 then y + 2000 else y
  mkDate year m d

/-- Pattern (\d\x7b1,2\x7d)⟨slash-dash⟩(\d\x7b1,2\x7d)⟨slash-dash⟩(\d\x7b2,4\x7d). -/
def datePat1 : RE :=
  .seq (.grp (repRange digitRE 1 2)) (.seq (.cls slashDash)
    (.seq (.grp (repRange digitRE 1 2)) (.seq (.cls slashDash)
      (.grp (repRange digitRE 2 4)))))

/-- Pattern (\d\x7b4\x7d)⟨slash-dash⟩(\d\x7b1,2\x7d)⟨slash-dash⟩(\d\x7b1,2\x7d). -/
def datePat2 : RE :=
  .seq (.grp (repRange digitRE 4 4)) (.seq (.cls slashDash)
    (.seq (.grp (repRange digitRE 1 2)) (.seq (.cls slashDash)
      (.grp (repRange digitRE 1 2)))))

/-- Pattern date[\s:]*(\d\x7b1,2\x7d)⟨slash-dash⟩(\d\x7b1,2\x7d)⟨slash-dash⟩(\d\x7b2,4\x7d). -/
def datePat3 : RE :=
  .seq (litCI "date".toList) (.seq (.star (.cls spColon)) datePat1)

/-- Alternation (?:jan|feb|mar|apr|may|jun|jul|aug|sep|oct|nov|dec), IGNORECASE. -/
def monthAlt : RE :=
  altList (["jan", "feb", "mar", "apr", "may", "jun",
            "jul", "aug", "sep", "oct", "nov", "dec"].map (fun s => litCI s.toList))

/-- Pattern (\d\x7b1,2\x7d)\s+(?:jan|...|dec)\w*\s+(\d\x7b2,4\x7d): note it
    captures only TWO groups (the month is not captured in the source). -/
def datePat4 : RE :=
  .seq (.grp (repRange digitRE 1 2)) (.seq (rplus spaceRE)
    (.seq monthAlt (.seq (.star (.cls isWordChar)) (.seq (rplus spaceRE)
      (.grp (repRange digitRE 2 4))))))

/-- Per-match handler of parse_date: the date is built only when the match
    has exactly three groups (so the fourth pattern never yields a date);
    failed calendar validation is skipped. -/
def dateMatchToDate (gs : List (List Char)) : Option PDate :=
  match gs with
  | [g1, g2, g3] => dmy_to_date (digitsToNat g1) (digitsToNat g2) (digitsToNat g3)
  | _ => none

/-- ocr_utils.parse_date: patterns in order, matches left to right, first
    successfully built date wins. -/
def parse_date (text : String) : Option PDate :=
  (([datePat1, datePat2, datePat3, datePat4].map
    (fun p => (reFinditer p text.toList).filterMap dateMatchToDate)).flatten).head?

/-- Skip words of parse_vendor_name. -/
def vnSkipWords : List (List Char) :=
  ["bill", "invoice", "tax", "gst", "date", "amount"].map String.toList

/-- Corporate-suffix indicators of parse_vendor_name (case-sensitive). -/
def vnIndicators : List (List Char) :=
  ["Ltd", "Limited", "Pvt", "Pvt.", "Corp", "Corporation", "Inc"].map String.toList

/-- Character class of ^[A-Za-z\s&]+$. -/
def vendorNameCharOK (c : Char) : Bool := c.isAlpha || pySpace c || c = '&'

/-- Line loop of ocr_utils.parse_vendor_name over the first 10 lines. -/
def parse_vendor_name_lines (existing : Option (List String)) :
    List (List Char) → Option String
  | [] => none
  | line :: rest =>
    let lc := pyStrip line
    if vnSkipWords.any (fun w => hasSub (pyLowerL lc) w) then
      parse_vendor_name_lines existing rest
    else if vnIndicators.any (fun w => hasSub lc w) then some (String.mk lc)
    else if lc.length > 5 && (match lc with | c :: _ => ! c.isDigit | [] => true) then
      match (match existing with
        | some vs => if vs ≠ [] then
            vs.find? (fun v => hasSub (pyLowerL lc) (pyLowerL v.toList))
          else none
        | none => none) with
      | some v => some v
      | none =>
        if (lc.take 50) ≠ [] ∧ (lc.take 50).all vendorNameCharOK then
          some (String.mk (lc.take 100))
        else parse_vendor_name_lines existing rest
    else parse_vendor_name_lines existing rest

/-- ocr_utils.parse_vendor_name: heuristic scan of the first 10 lines. -/
def parse_vendor_name (text : String) (existing_vendors : Option (List String)) :
    Option String :=
  parse_vendor_name_lines existing_vendors ((splitOnChar '\n' text.toList).take 10)

/-- ocr_utils.parse_bill_data output record. -/
structure ParsedBillFields where
  bill_number : Option String
  amount : Option ℚ
  date : Option PDate
  vendor_name : Option String
deriving DecidableEq

/-- ocr_utils.parse_bill_data: the four extractors run independently. -/
def parse_bill_data (text : String) (existing_vendors : Option (List String)) :
    ParsedBillFields :=
  ⟨parse_bill_number text, parse_amount text, parse_date text,
    parse_vendor_name text existing_vendors⟩

/- ===== ocr_utils.py : Discrepancy Reconciler ===== -/

/-- The dictionaries passed to compare_bill_data: three optional fields
    (a missing key and a None value are both `none`; empty string and 0 are
    representable and are falsy, matching Python truthiness). -/
structure BillData where
  bill_number : Option String
  amount : Option ℚ
  date : Option PDate
deriving DecidableEq

/-- Python truthiness of an optional string. -/
def truthyStr : Option String → Bool
  | none => false
  | some s => decide (s ≠ "")

/-- Python truthiness of an optional float. -/
def truthyAmt : Option ℚ → Bool
  | none => false
  | some q => decide (q ≠ 0)

/-- Python truthiness of an optional date (date objects are always truthy). -/
def truthyDate : Option PDate → Bool
  | none => false
  | some _ => true

/-- One entry of the discrepancies list, tagged by field. -/
inductive DiscrepancyEntry where
  | billNumberD (stored ocr : String)
  | amountD (stored ocr difference : ℚ)
  | dateD (stored ocr : PDate)
deriving DecidableEq

/-- Bill-number comparison: only when both sides are truthy. -/
def bnEntries (stored ocr : Option String) : List DiscrepancyEntry :=
  match stored, ocr with
  | some s, some o =>
    if s ≠ "" ∧ o ≠ "" ∧ s ≠ o then [.billNumberD s o] else []
  | _, _ => []

/-- Amount comparison: only when both sides are truthy; flagged when the
    absolute difference exceeds 0.01. -/
def amtEntries (stored ocr : Option ℚ) : List DiscrepancyEntry :=
  match stored, ocr with
  | some s, some o =>
    if s ≠ 0 ∧ o ≠ 0 ∧ |s - o| > 1 / 100 then [.amountD s o |s - o|] else []
  | _, _ => []

/-- Date comparison: only when both sides are truthy. -/
def dateEntries (stored ocr : Option PDate) : List DiscrepancyEntry :=
  match stored, ocr with
  | some s, some o => if s ≠ o then [.dateD s o] else []
  | _, _ => []

/-- Output of compare_bill_data. -/
structure DiscrepancyReport where
  has_discrepancy : Bool
  discrepancies : List DiscrepancyEntry
deriving DecidableEq

/-- ocr_utils.compare_bill_data: bill number, then amount, then date. -/
def compare_bill_data (stored ocr : BillData) : DiscrepancyReport :=
  let ds := bnEntries stored.bill_number ocr.bill_number
    ++ amtEntries stored.amount ocr.amount
    ++ dateEntries stored.date ocr.date
  ⟨decide (ds ≠ []), ds⟩

/- ===== vendor_ocr_utils.py : Vendor Matcher ===== -/

/-- A vendor catalog entry. -/
structure Vendor where
  id : Nat
  name : String
deriving DecidableEq

/-- Result triple of the vendor matcher; match_type is one of the source's
    strings "exact", "fuzzy", "partial", "no_match". -/
structure MatchResult where
  vendor : Option Vendor
  score : ℚ
  match_type : String
deriving DecidableEq

/-- The vendor_names list: names of the catalog entries, skipping empty
    names, in order, duplicates kept. -/
def vendor_names (vs : List Vendor) : List String :=
  (vs.map (fun v => v.name)).filter (fun n => n ≠ "")

/-- The vendor_dict lookup: the dict maps each nonempty name to the last
    vendor bearing it. -/
def vendor_dict (vs : List Vendor) (n : String) : Option Vendor :=
  (vs.filter (fun v => v.name == n)).getLast?

/-- Keyword list scanned inside each line (already upper-cased text). -/
def vendorKeywords : List (List Char) :=
  ["VENDOR", "SUPPLIER", "FROM", "TO", "COMPANY", "STORE", "SHOP"].map String.toList

/-- Candidate substrings contributed by one line: for every keyword present
    in the upper-cased stripped line, the stripped text after the first
    occurrence; then the stripped original line when it is 3..99 characters
    and contains a letter.  A line whose upper-cased strip is empty yields
    nothing. -/
def lineCandidates (line : List Char) : List String :=
  let line_upper := pyStrip (pyUpper line)
  if line_upper = [] then []
  else
    let kw := vendorKeywords.filterMap (fun k =>
      if hasSub line_upper k then
        let t := pyStrip (pyStripChars (fun c => c = ' ' || c = ':' || c = '\n' || c = '\t')
          (afterFirst line_upper k))
        if t ≠ [] then some (String.mk t) else none
      else none)
    let lc := pyStrip line
    let base := if lc.length < 100 && lc.length > 2 && line.any Char.isAlpha then
        [String.mk lc]
      else []
    kw ++ base

/-- The possible_vendor_texts list of match_vendor_from_ocr; when the line
    scan yields nothing, fall back to the first five stripped lines of
    3..99 characters containing a letter. -/
def possible_vendor_texts (text : String) : List String :=
  let lines := splitOnChar '\n' text.toList
  let main := (lines.map lineCandidates).flatten
  if main = [] then
    (lines.take 5).filterMap (fun line =>
      let lc := pyStrip line
      if lc ≠ [] && lc.length < 100 && lc.length > 2 && lc.any Char.isAlpha then
        some (String.mk lc)
      else none)
  else main

/-- Accumulator loop of extractOne: keep the strictly better score. -/
def extractOneAux (scorer : String → String → ℚ) (q : String) :
    List String → Option (String × ℚ) → Option (String × ℚ)
  | [], acc => acc
  | c :: rest, acc =>
    match acc with
    | none => extractOneAux scorer q rest (some (c, scorer q c))
    | some (b, bs) =>
      if scorer q c > bs then extractOneAux scorer q rest (some (c, scorer q c))
      else extractOneAux scorer q rest (some (b, bs))

/-- rapidfuzz process.extractOne with an abstract scorer: best-scoring
    choice, first one on ties, none only for an empty choice list. -/
def extractOne (scorer : String → String → ℚ) (q : String) (choices : List String) :
    Option (String × ℚ) :=
  extractOneAux scorer q choices none

/-- The exact-then-fuzzy loop over candidates: an immediate return
    (score 100, "exact") on the first candidate that equals a vendor name
    (case-sensitively); otherwise the best (vendor, score) of the abstract
    scorer is accumulated. -/
def exactFuzzyLoop (scorer : String → String → ℚ) (vd : String → Option Vendor)
    (names : List String) : List String → Option Vendor × ℚ →
    MatchResult ⊕ (Option Vendor × ℚ)
  | [], best => .inr best
  | c :: rest, (bm, bs) =>
    if c ∈ names then .inl ⟨vd c, 100, "exact"⟩
    else
      match extractOne scorer c names with
      | none => exactFuzzyLoop scorer vd names rest (bm, bs)
      | some (mn, sc) =>
        if sc > bs then exactFuzzyLoop scorer vd names rest (vd mn, sc)
        else exactFuzzyLoop scorer vd names rest (bm, bs)

/-- Substring-containment retry over names for one candidate, scored by the
    abstract partial-ratio scorer. -/
def containNames (pscorer : String → String → ℚ) (vd : String → Option Vendor)
    (c : String) : List String → Option Vendor × ℚ → Option Vendor × ℚ
  | [], best => best
  | n :: rest, (bm, bs) =>
    if hasSub (pyLowerL n.toList) (pyLowerL c.toList)
        || hasSub (pyLowerL c.toList) (pyLowerL n.toList) then
      let sc := pscorer c n
      if sc > bs then containNames pscorer vd c rest (vd n, sc)
      else containNames pscorer vd c rest (bm, bs)
    else containNames pscorer vd c rest (bm, bs)

/-- Substring-containment retry over all candidates. -/
def containLoop (pscorer : String → String → ℚ) (vd : String → Option Vendor)
    (names : List String) : List String → Option Vendor × ℚ → Option Vendor × ℚ
  | [], best => best
  | c :: rest, best => containLoop pscorer vd names rest (containNames pscorer vd c names best)

/-- vendor_ocr_utils.match_vendor_from_ocr (RapidFuzz available), with the
    two library scorers (token_sort_ratio via extractOne, partial_ratio)
    passed in abstractly since they are external library code. -/
def match_vendor_from_ocr (scorer pscorer : String → String → ℚ)
    (extracted_text : String) (vendors_list : List Vendor) (threshold : ℚ) :
    MatchResult :=
  if extracted_text = "" ∨ vendors_list = [] then ⟨none, 0, "no_match"⟩
  else
    let names := vendor_names vendors_list
    if names = [] then ⟨none, 0, "no_match"⟩
    else
      let cands := possible_vendor_texts extracted_text
      if cands = [] then ⟨none, 0, "no_match"⟩
      else
        match exactFuzzyLoop scorer (vendor_dict vendors_list) names cands (none, 0) with
        | .inl r => r
        | .inr (bm, bs) =>
          if bm.isSome ∧ bs ≥ threshold then
            ⟨bm, bs, if bs < 100 then "fuzzy" else "exact"⟩
          else
            match containLoop pscorer (vendor_dict vendors_list) names cands (bm, bs) with
            | (bm2, bs2) =>
              if bm2.isSome ∧ bs2 ≥ threshold then ⟨bm2, bs2, "partial"⟩
              else ⟨none, bs2, "no_match"⟩

/-- Vendor loop of simple_vendor_match: first branch returns (100, "exact")
    on containment in either direction; the second branch (90, "partial")
    requires name_upper in text_upper, which the first branch already
    covers. -/
def simple_vendor_loop (text_upper : List Char) : List Vendor → MatchResult
  | [] => ⟨none, 0, "no_match"⟩
  | v :: rest =>
    if v.name = "" then simple_vendor_loop text_upper rest
    else
      let name_upper := pyUpper v.name.toList
      if hasSub text_upper name_upper || hasSub name_upper text_upper then
        ⟨some v, 100, "exact"⟩
      else if hasSub text_upper name_upper then ⟨some v, 90, "partial"⟩
      else simple_vendor_loop text_upper rest

/-- vendor_ocr_utils.simple_vendor_match: the RapidFuzz-unavailable fallback;
    the threshold parameter is accepted and unused, as in the source. -/
def simple_vendor_match (extracted_text : String) (vendors_list : List Vendor)
    (threshold : ℚ) : MatchResult :=
  if extracted_text = "" ∨ vendors_list = [] then ⟨none, 0, "no_match"⟩
  else
    let _ := threshold
    simple_vendor_loop (pyUpper extracted_text.toList) vendors_list

/- ===== app.py : Verification Workflow ===== -/

/-- The audit row written by the re-verification branch of
    app.verify_bill_by_id (OCRAuditLog; reviewer id and timestamps are
    request-context fields outside the core and are omitted). -/
structure OCRAuditEntry where
  verification_type : String
  discrepancy_found : Bool
  discrepancy_details : Option (List DiscrepancyEntry)
  stored_bill_number : String
  ocr_bill_number : Option String
  stored_amount : ℚ
  ocr_amount : Option ℚ
deriving DecidableEq

/-- Observable outcome of the POST branch of app.verify_bill_by_id. -/
structure VerifyByIdResult where
  status : String
  verification_status : String
  audit : Option OCRAuditEntry
deriving DecidableEq

/-- The ocr_data dict built in verify_bill_by_id from re-running the Field
    Extractor over the stored OCR text. -/
def reverify_ocr_data (txt : String) : BillData :=
  let p := parse_bill_data txt none
  ⟨p.bill_number, p.amount, p.date⟩

/-- The stored_data dict built in verify_bill_by_id from the reviewer form. -/
def reverify_stored_data (bill_number : String) (amount : ℚ) (bill_date : PDate) :
    BillData :=
  ⟨some bill_number, some amount, some bill_date⟩

/-- app.verify_bill_by_id, POST path: the bill is marked verified; when the
    bill has an image and stored OCR text, the extractor re-runs over that
    text and compare_bill_data decides between discrepancy_found (audit with
    full detail) and verified (clean audit). -/
def verify_bill_by_id_post (bill_number : String) (amount : ℚ) (bill_date : PDate)
    (image_filename extracted_text : Option String) : VerifyByIdResult :=
  if truthyStr image_filename && truthyStr extracted_text then
    let ocr := reverify_ocr_data (extracted_text.getD "")
    let comparison := compare_bill_data
      (reverify_stored_data bill_number amount bill_date) ocr
    if comparison.has_discrepancy then
      ⟨"discrepancy_found", "discrepancy_found",
        some ⟨"re_verification", true, some comparison.discrepancies,
          bill_number, ocr.bill_number, amount, ocr.amount⟩⟩
    else
      ⟨"verified", "verified",
        some ⟨"re_verification", false, none,
          bill_number, ocr.bill_number, amount, ocr.amount⟩⟩
  else ⟨"verified", "verified", none⟩

/-- The Bill fields read and written by the final-adjudication route and by
    detect_ocr_mismatches (ocr_date is modelled already parsed; the source
    parses a string-valued ocr_date and drops it when unparseable). -/
structure BillRec where
  bill_number : String
  amount : ℚ
  bill_date : PDate
  vendor : Option Vendor
  bill_type : String
  verification_status : String
  ocr_bill_number : Option String
  ocr_amount : Option ℚ
  ocr_date : Option PDate
deriving DecidableEq

/-- The mismatch dict of app.detect_ocr_mismatches, one optional entry per
    field; each entry carries (ocr value, stored value), the amount entry
    also the difference. -/
structure Mismatches where
  bill_number : Option (String × String)
  amount : Option (ℚ × ℚ × ℚ)
  date : Option (PDate × PDate)
  vendor : Option (String × String)
deriving DecidableEq

/-- Python dict truthiness of the mismatch dict. -/
def Mismatches.isEmpty (m : Mismatches) : Bool :=
  m.bill_number = none && m.amount = none && m.date = none && m.vendor = none

/-- app.detect_ocr_mismatches: only for bills of type "normal"; bill number
    on truthy inequality, amount when the difference exceeds 5, date on
    inequality, vendor on case-insensitive name inequality against the OCR
    vendor-link row. -/
def detect_ocr_mismatches (bill : BillRec) (ocr_vendor_link : Option String) :
    Mismatches :=
  if bill.bill_type ≠ "normal" then ⟨none, none, none, none⟩
  else
    ⟨(match bill.ocr_bill_number with
      | some o => if o ≠ "" ∧ bill.bill_number ≠ o then some (o, bill.bill_number) else none
      | none => none),
     (match bill.ocr_amount with
      | some o => if o ≠ 0 ∧ |bill.amount - o| > 5 then
          some (o, bill.amount, |bill.amount - o|) else none
      | none => none),
     (match bill.ocr_date with
      | some o => if bill.bill_date ≠ o then some (o, bill.bill_date) else none
      | none => none),
     (match ocr_vendor_link, bill.vendor with
      | some nm, some v =>
        if nm ≠ "" ∧ pyLowerL v.name.toList ≠ pyLowerL nm.toList then
          some (nm, v.name) else none
      | _, _ => none)⟩

/-- The OCRVerificationLog row appended by the final adjudication. -/
structure VerificationLogEntry where
  verified_by : Nat
  status : String
  mismatch_fields : Option Mismatches
  remarks : String
deriving DecidableEq

/-- Reviewer form of app.verify_ocr_bill_final.  A `none` correction field
    stands for an absent or empty form value (which the source leaves
    unapplied); `some v` for a provided value. -/
structure FinalForm where
  action : String
  remarks : String
  corrected_bill_number : Option String
  corrected_amount : Option ℚ
  corrected_date : Option PDate
deriving DecidableEq

/-- Result of the final adjudication: the updated bill and the appended
    verification-log row. -/
structure FinalOutcome where
  bill : BillRec
  log : VerificationLogEntry
deriving DecidableEq

/-- The mismatch_fields column value: json of the dict when non-empty,
    else NULL. -/
def mismatchField (b : BillRec) (link : Option String) : Option Mismatches :=
  let m := detect_ocr_mismatches b link
  if m.isEmpty then none else some m

/-- app.verify_ocr_bill_final: approve / correct / reject on a bill, then a
    verification-log entry with reviewer id, status label, the mismatches
    detected against the final stored values, and the remarks.  `none` is
    the invalid-action redirect, which writes nothing. -/
def verify_ocr_bill_final (bill : BillRec) (link : Option String) (userId : Nat)
    (form : FinalForm) : Option FinalOutcome :=
  if form.action = "approve" then
    let b := { bill with verification_status := "verified" }
    some ⟨b, ⟨userId, "Verified", mismatchField b link, form.remarks⟩⟩
  else if form.action = "correct" then
    let b1 := match form.corrected_bill_number with
      | some s => if s ≠ bill.bill_number then { bill with bill_number := s } else bill
      | none => bill
    let b2 := match form.corrected_amount with
      | some a => { b1 with amount := a }
      | none => b1
    let b3 := match form.corrected_date with
      | some d => { b2 with bill_date := d }
      | none => b2
    let b := { b3 with verification_status := "verified" }
    some ⟨b, ⟨userId, "Corrected", mismatchField b link, form.remarks⟩⟩
  else if form.action = "reject" then
    let b := { bill with verification_status := "rejected" }
    some ⟨b, ⟨userId, "Rejected", mismatchField b link, form.remarks⟩⟩
  else none

/- ===== Helper lemmas ===== -/

lemma mem_bnEntries {s o : Option String} {x : DiscrepancyEntry} (h : x ∈ bnEntries s o) :
    ∃ a b, x = .billNumberD a b ∧ s = some a ∧ o = some b ∧ a ≠ "" ∧ b ≠ "" ∧ a ≠ b := by
  match s, o with
  | some a, some b =>
    simp only [bnEntries] at h
    split at h
    · rename_i hc
      simp only [List.mem_singleton] at h
      exact ⟨a, b, h, rfl, rfl, hc.1, hc.2.1, hc.2.2⟩
    · simp at h
  | some a, none => simp [bnEntries] at h
  | none, _ => simp [bnEntries] at h

lemma mem_amtEntries {s o : Option ℚ} {x : DiscrepancyEntry} (h : x ∈ amtEntries s o) :
    ∃ a b, x = .amountD a b |a - b| ∧ s = some a ∧ o = some b ∧ a ≠ 0 ∧ b ≠ 0
      ∧ |a - b| > 1 / 100 := by
  match s, o with
  | some a, some b =>
    simp only [amtEntries] at h
    split at h
    · rename_i hc
      simp only [List.mem_singleton] at h
      exact ⟨a, b, h, rfl, rfl, hc.1, hc.2.1, hc.2.2⟩
    · simp at h
  | some a, none => simp [amtEntries] at h
  | none, _ => simp [amtEntries] at h

lemma mem_dateEntries {s o : Option PDate} {x : DiscrepancyEntry} (h : x ∈ dateEntries s o) :
    ∃ a b, x = .dateD a b ∧ s = some a ∧ o = some b ∧ a ≠ b := by
  match s, o with
  | some a, some b =>
    simp only [dateEntries] at h
    split at h
    · rename_i hc
      simp only [List.mem_singleton] at h
      exact ⟨a, b, h, rfl, rfl, hc⟩
    · simp at h
  | some a, none => simp [dateEntries] at h
  | none, _ => simp [dateEntries] at h

lemma mem_compare_cases {stored ocr : BillData} {x : DiscrepancyEntry}
    (h : x ∈ (compare_bill_data stored ocr).discrepancies) :
    x ∈ bnEntries stored.bill_number ocr.bill_number
      ∨ x ∈ amtEntries stored.amount ocr.amount
      ∨ x ∈ dateEntries stored.date ocr.date := by
  simpa [compare_bill_data] using h

/- ===== Claim theorems ===== -/

/-- C7: compare_bill_data compares only fields present on both sides — a
    field missing (absent / None) on either side is never flagged — and
    has_discrepancy holds exactly when the discrepancies list is
    non-empty. -/
theorem compare_bill_data_presence_spec (stored ocr : BillData) :
    ((compare_bill_data stored ocr).has_discrepancy = true ↔
      (compare_bill_data stored ocr).discrepancies ≠ [])
    ∧ (stored.bill_number = none →
        ∀ a b, DiscrepancyEntry.billNumberD a b ∉ (compare_bill_data stored ocr).discrepancies)
    ∧ (ocr.bill_number = none →
        ∀ a b, DiscrepancyEntry.billNumberD a b ∉ (compare_bill_data stored ocr).discrepancies)
    ∧ (stored.amount = none →
        ∀ a b d, DiscrepancyEntry.amountD a b d ∉ (compare_bill_data stored ocr).discrepancies)
    ∧ (ocr.amount = none →
        ∀ a b d, DiscrepancyEntry.amountD a b d ∉ (compare_bill_data stored ocr).discrepancies)
    ∧ (stored.date = none →
        ∀ a b, DiscrepancyEntry.dateD a b ∉ (compare_bill_data stored ocr).discrepancies)
    ∧ (ocr.date = none →
        ∀ a b, DiscrepancyEntry.dateD a b ∉ (compare_bill_data stored ocr).discrepancies) := by
  refine ⟨⟨fun h => of_decide_eq_true h, fun h => decide_eq_true h⟩, ?_, ?_, ?_, ?_, ?_, ?_⟩
  all_goals
    intro hnone a b
  · intro hmem
    rcases mem_compare_cases hmem with h | h | h
    · obtain ⟨_, _, _, hs, _⟩ := mem_bnEntries h
      rw [hnone] at hs
      exact Option.noConfusion hs
    · obtain ⟨_, _, hx, _⟩ := mem_amtEntries h
      exact DiscrepancyEntry.noConfusion hx
    · obtain ⟨_, _, hx, _⟩ := mem_dateEntries h
      exact DiscrepancyEntry.noConfusion hx
  · intro hmem
    rcases mem_compare_cases hmem with h | h | h
    · obtain ⟨_, _, _, _, ho, _⟩ := mem_bnEntries h
      rw [hnone] at ho
      exact Option.noConfusion ho
    · obtain ⟨_, _, hx, _⟩ := mem_amtEntries h
      exact DiscrepancyEntry.noConfusion hx
    · obtain ⟨_, _, hx, _⟩ := mem_dateEntries h
      exact DiscrepancyEntry.noConfusion hx
  · intro d hmem
    rcases mem_compare_cases hmem with h | h | h
    · obtain ⟨_, _, hx, _⟩ := mem_bnEntries h
      exact DiscrepancyEntry.noConfusion hx
    · obtain ⟨_, _, _, hs, _⟩ := mem_amtEntries h
      rw [hnone] at hs
      exact Option.noConfusion hs
    · obtain ⟨_, _, hx, _⟩ := mem_dateEntries h
      exact DiscrepancyEntry.noConfusion hx
  · intro d hmem
    rcases mem_compare_cases hmem with h | h | h
    · obtain ⟨_, _, hx, _⟩ := mem_bnEntries h
      exact DiscrepancyEntry.noConfusion hx
    · obtain ⟨_, _, _, _, ho, _⟩ := mem_amtEntries h
      rw [hnone] at ho
      exact Option.noConfusion ho
    · obtain ⟨_, _, hx, _⟩ := mem_dateEntries h
      exact DiscrepancyEntry.noConfusion hx
  · intro hmem
    rcases mem_compare_cases hmem with h | h | h
    · obtain ⟨_, _, hx, _⟩ := mem_bnEntries h
      exact DiscrepancyEntry.noConfusion hx
    · obtain ⟨_, _, hx, _⟩ := mem_amtEntries h
      exact DiscrepancyEntry.noConfusion hx
    · obtain ⟨_, _, _, hs, _⟩ := mem_dateEntries h
      rw [hnone] at hs
      exact Option.noConfusion hs
  · intro hmem
    rcases mem_compare_cases hmem with h | h | h
    · obtain ⟨_, _, hx, _⟩ := mem_bnEntries h
      exact DiscrepancyEntry.noConfusion hx
    · obtain ⟨_, _, hx, _⟩ := mem_amtEntries h
      exact DiscrepancyEntry.noConfusion hx
    · obtain ⟨_, _, _, _, ho, _⟩ := mem_dateEntries h
      rw [hnone] at ho
      exact Option.noConfusion ho

/-- C7 witness at a concrete input with missing fields on one side each. -/
theorem compare_bill_data_presence_spec_witness :
    DiscrepancyEntry.billNumberD "A" "B" ∉
      (compare_bill_data ⟨none, some 7, none⟩ ⟨some "X", none, some ⟨2024, 6, 1⟩⟩).discrepancies :=
  (compare_bill_data_presence_spec ⟨none, some 7, none⟩ ⟨some "X", none, some ⟨2024, 6, 1⟩⟩).2.1
    rfl "A" "B"

/-- C10: compare_bill_data gates each field on Python truthiness, not key
    presence: a falsy value on either side (empty bill number, amount 0, or
    a missing value) keeps the field from ever being flagged, even against a
    conflicting non-empty / non-zero value on the other side. -/
theorem compare_bill_data_truthiness_spec (stored ocr : BillData) :
    (truthyStr stored.bill_number = false →
      ∀ a b, DiscrepancyEntry.billNumberD a b ∉ (compare_bill_data stored ocr).discrepancies)
    ∧ (truthyStr ocr.bill_number = false →
      ∀ a b, DiscrepancyEntry.billNumberD a b ∉ (compare_bill_data stored ocr).discrepancies)
    ∧ (truthyAmt stored.amount = false →
      ∀ a b d, DiscrepancyEntry.amountD a b d ∉ (compare_bill_data stored ocr).discrepancies)
    ∧ (truthyAmt ocr.amount = false →
      ∀ a b d, DiscrepancyEntry.amountD a b d ∉ (compare_bill_data stored ocr).discrepancies)
    ∧ compare_bill_data ⟨some "", some 0, none⟩ ⟨some "B-1", some 250, none⟩
        = ⟨false, []⟩ := by
  refine ⟨?_, ?_, ?_, ?_, by simp [compare_bill_data, bnEntries, amtEntries, dateEntries]⟩
  · intro hfalsy a b hmem
    rcases mem_compare_cases hmem with h | h | h
    · obtain ⟨a', _, hx, hs, _, hne, _⟩ := mem_bnEntries h
      rw [hs] at hfalsy
      simp only [truthyStr, decide_eq_false_iff_not, not_not] at hfalsy
      cases hx
      exact hne hfalsy
    · obtain ⟨_, _, hx, _⟩ := mem_amtEntries h
      exact DiscrepancyEntry.noConfusion hx
    · obtain ⟨_, _, hx, _⟩ := mem_dateEntries h
      exact DiscrepancyEntry.noConfusion hx
  · intro hfalsy a b hmem
    rcases mem_compare_cases hmem with h | h | h
    · obtain ⟨_, b', hx, _, ho, _, hne, _⟩ := mem_bnEntries h
      rw [ho] at hfalsy
      simp only [truthyStr, decide_eq_false_iff_not, not_not] at hfalsy
      cases hx
      exact hne hfalsy
    · obtain ⟨_, _, hx, _⟩ := mem_amtEntries h
      exact DiscrepancyEntry.noConfusion hx
    · obtain ⟨_, _, hx, _⟩ := mem_dateEntries h
      exact DiscrepancyEntry.noConfusion hx
  · intro hfalsy a b d hmem
    rcases mem_compare_cases hmem with h | h | h
    · obtain ⟨_, _, hx, _⟩ := mem_bnEntries h
      exact DiscrepancyEntry.noConfusion hx
    · obtain ⟨_, _, hx, hs, _, hne, _⟩ := mem_amtEntries h
      rw [hs] at hfalsy
      simp only [truthyAmt, decide_eq_false_iff_not, not_not] at hfalsy
      cases hx
      exact hne hfalsy
    · obtain ⟨_, _, hx, _⟩ := mem_dateEntries h
      exact DiscrepancyEntry.noConfusion hx
  · intro hfalsy a b d hmem
    rcases mem_compare_cases hmem with h | h | h
    · obtain ⟨_, _, hx, _⟩ := mem_bnEntries h
      exact DiscrepancyEntry.noConfusion hx
    · obtain ⟨_, _, hx, _, ho, _, hne, _⟩ := mem_amtEntries h
      rw [ho] at hfalsy
      simp only [truthyAmt, decide_eq_false_iff_not, not_not] at hfalsy
      cases hx
      exact hne hfalsy
    · obtain ⟨_, _, hx, _⟩ := mem_dateEntries h
      exact DiscrepancyEntry.noConfusion hx

/-- C10 witness: a zero stored amount silences the amount comparison even
    against a conflicting OCR value. -/
theorem compare_bill_data_truthiness_spec_witness :
    DiscrepancyEntry.amountD 0 250 250 ∉
      (compare_bill_data ⟨some "Z", some 0, none⟩ ⟨some "Z", some 250, none⟩).discrepancies :=
  (compare_bill_data_truthiness_spec ⟨some "Z", some 0, none⟩ ⟨some "Z", some 250, none⟩).2.2.1
    (by simp [truthyAmt]) 0 250 250

/-- C5: the spec says YYYY-MM-DD texts and "DD Month YYYY" texts both parse
    to the written calendar date, but the code mishandles both: the
    DD/MM/YYYY pattern runs first and matches the substring "24-03-15" of
    "2024-03-15" (yielding 2015-03-24), and the month-name pattern captures
    only two groups, which the 3-group handler skips, so "15 March 2024"
    yields nothing. -/
theorem parse_date_pattern_bugs :
    parse_date "2024-03-15" = some ⟨2015, 3, 24⟩
      ∧ parse_date "15 March 2024" = none := by
  constructor
  · decide
  · decide

/-- C6: "15/03/2024" and "15/03/24" both parse to 2024-03-15, and in the
    single live match handler a sub-100 year gets 2000 added before the
    date is built. -/
theorem parse_date_two_digit_year_spec :
    (∀ d m y, y < 100 → dmy_to_date d m y = mkDate (y + 2000) m d)
      ∧ parse_date "15/03/2024" = some ⟨2024, 3, 15⟩
      ∧ parse_date "15/03/24" = some ⟨2024, 3, 15⟩ := by
  refine ⟨fun d m y hy => ?_, by decide, by decide⟩
  simp only [dmy_to_date, if_pos hy]

/-- C6 witness: the year 24 is normalized to 2024. -/
theorem parse_date_two_digit_year_spec_witness :
    dmy_to_date 15 3 24 = mkDate (24 + 2000) 3 15 :=
  parse_date_two_digit_year_spec.1 15 3 24 (by decide)

lemma simple_vendor_loop_shape (t : List Char) (vs : List Vendor) :
    (∃ v, simple_vendor_loop t vs = ⟨some v, 100, "exact"⟩)
      ∨ simple_vendor_loop t vs = ⟨none, 0, "no_match"⟩ := by
  induction vs with
  | nil => exact Or.inr rfl
  | cons v rest ih =>
    simp only [simple_vendor_loop]
    by_cases h1 : v.name = ""
    · rw [if_pos h1]
      exact ih
    · rw [if_neg h1]
      by_cases hab : (hasSub t (pyUpper v.name.toList)
          || hasSub (pyUpper v.name.toList) t) = true
      · rw [if_pos hab]
        exact Or.inl ⟨v, rfl⟩
      · rw [if_neg hab]
        have ha : hasSub t (pyUpper v.name.toList) = false :=
          (Bool.or_eq_false_iff.mp (Bool.eq_false_iff.mpr hab)).1
        rw [ha, if_neg Bool.false_ne_true]
        exact ih

/-- C4 counterexample: the fallback matcher can never return the claimed
    (vendor, 90, partial) result — the partial branch condition is subsumed
    by the exact branch, so that branch is unreachable. -/
theorem simple_vendor_match_no_partial :
    ¬ ∃ (t : String) (vl : List Vendor) (th : ℚ) (v : Vendor),
      simple_vendor_match t vl th = ⟨some v, 90, "partial"⟩ := by
  rintro ⟨t, vl, th, v, h⟩
  unfold simple_vendor_match at h
  split at h
  · exact absurd (congrArg MatchResult.vendor h) (by simp)
  · rcases simple_vendor_loop_shape (pyUpper t.toList) vl with ⟨v', hv⟩ | hv
    · rw [hv] at h
      have := congrArg MatchResult.score h
      simp only at this
      norm_num at this
    · rw [hv] at h
      exact absurd (congrArg MatchResult.vendor h) (by simp)

/-- C4 amended: when RapidFuzz is unavailable the fallback keeps the
    match_type taxonomy but only ever produces (vendor, 100, exact) — on the
    first vendor whose name contains or is contained in the text — or
    (absent, 0, no_match); the (90, partial) outcome described by the spec is
    unreachable. -/
theorem simple_vendor_match_fallback_spec (t : String) (vl : List Vendor) (th : ℚ) :
    ((∃ v, simple_vendor_match t vl th = ⟨some v, 100, "exact"⟩)
      ∨ simple_vendor_match t vl th = ⟨none, 0, "no_match"⟩)
    ∧ (∀ v, t ≠ "" →
        vl.find? (fun w => w.name ≠ "" &&
          (hasSub (pyUpper t.toList) (pyUpper w.name.toList)
            || hasSub (pyUpper w.name.toList) (pyUpper t.toList))) = some v →
        simple_vendor_match t vl th = ⟨some v, 100, "exact"⟩) := by
  constructor
  · unfold simple_vendor_match
    split
    · exact Or.inr rfl
    · exact simple_vendor_loop_shape (pyUpper t.toList) vl
  · intro v ht hfind
    have hvl : vl ≠ [] := by
      rintro rfl
      simp at hfind
    unfold simple_vendor_match
    rw [if_neg (by simp [ht, hvl])]
    clear ht hvl
    induction vl with
    | nil => simp at hfind
    | cons w rest ih =>
      rw [List.find?_cons] at hfind
      by_cases hname : w.name = ""
      · have hw : (decide (w.name ≠ "") &&
            (hasSub (pyUpper t.toList) (pyUpper w.name.toList)
              || hasSub (pyUpper w.name.toList) (pyUpper t.toList))) = false := by
          simp [hname]
        rw [hw] at hfind
        have hfind2 : List.find? (fun w => decide (w.name ≠ "") &&
            (hasSub (pyUpper t.toList) (pyUpper w.name.toList)
              || hasSub (pyUpper w.name.toList) (pyUpper t.toList))) rest = some v := hfind
        simp only [simple_vendor_loop]
        rw [if_pos hname]
        exact ih hfind2
      · by_cases hc : (hasSub (pyUpper t.toList) (pyUpper w.name.toList)
            || hasSub (pyUpper w.name.toList) (pyUpper t.toList)) = true
        · have hw : (decide (w.name ≠ "") &&
              (hasSub (pyUpper t.toList) (pyUpper w.name.toList)
                || hasSub (pyUpper w.name.toList) (pyUpper t.toList))) = true := by
            rw [Bool.and_eq_true]
            exact ⟨decide_eq_true hname, hc⟩
          rw [hw] at hfind
          have hwv : w = v := by
            have h2 : some w = some v := hfind
            exact Option.some.inj h2
          subst hwv
          simp only [simple_vendor_loop]
          rw [if_neg hname, if_pos hc]
        · have hw : (decide (w.name ≠ "") &&
              (hasSub (pyUpper t.toList) (pyUpper w.name.toList)
                || hasSub (pyUpper w.name.toList) (pyUpper t.toList))) = false := by
            simp only [Bool.and_eq_false_iff]
            exact Or.inr (Bool.eq_false_iff.mpr hc)
          rw [hw] at hfind
          have hfind2 : List.find? (fun w => decide (w.name ≠ "") &&
              (hasSub (pyUpper t.toList) (pyUpper w.name.toList)
                || hasSub (pyUpper w.name.toList) (pyUpper t.toList))) rest = some v := hfind
          have hc1 : hasSub (pyUpper t.toList) (pyUpper w.name.toList) = false :=
            (Bool.or_eq_false_iff.mp (Bool.eq_false_iff.mpr hc)).1
          simp only [simple_vendor_loop]
          rw [if_neg hname, if_neg hc, hc1, if_neg Bool.false_ne_true]
          exact ih hfind2

/-- C4 amended witness: a containment hit returns (vendor, 100, exact)
    through the fallback. -/
theorem simple_vendor_match_fallback_spec_witness :
    simple_vendor_match "Acme Corp Invoice 9" [⟨1, "ACME CORP"⟩] 80
      = ⟨some ⟨1, "ACME CORP"⟩, 100, "exact"⟩ :=
  (simple_vendor_match_fallback_spec "Acme Corp Invoice 9" [⟨1, "ACME CORP"⟩] 80).2
    ⟨1, "ACME CORP"⟩ (by decide) (by decide)

lemma foldl_max_spec (xs : List ℚ) (x : ℚ) :
    (xs.foldl max x = x ∨ xs.foldl max x ∈ xs)
      ∧ x ≤ xs.foldl max x ∧ ∀ w ∈ xs, w ≤ xs.foldl max x := by
  induction xs generalizing x with
  | nil => exact ⟨Or.inl rfl, le_refl x, by simp⟩
  | cons y ys ih =>
    rw [List.foldl_cons]
    obtain ⟨hmem, hle, hall⟩ := ih (max x y)
    refine ⟨?_, ?_, ?_⟩
    · rcases hmem with h | h
      · rcases max_choice x y with hm | hm
        · exact Or.inl (by rw [h, hm])
        · exact Or.inr (by rw [h, hm]; exact List.mem_cons_self y ys)
      · exact Or.inr (List.mem_cons_of_mem y h)
    · exact le_trans (le_max_left x y) hle
    · intro w hw
      rcases List.mem_cons.mp hw with rfl | hw
      · exact le_trans (le_max_right x w) hle
      · exact hall w hw

lemma ratOfChars_digits (cs : List Char) (h : cs.takeWhile Char.isDigit = cs) :
    ratOfChars cs = (digitsToNat cs : ℚ) := by
  have hd : cs.drop (cs.takeWhile Char.isDigit).length = [] := by
    rw [h]
    exact List.drop_length cs
  unfold ratOfChars
  rw [hd, h]

lemma ratOfChars_eval (cs : List Char) (n : Nat) (h1 : cs.takeWhile Char.isDigit = cs)
    (h2 : digitsToNat cs = n) : ratOfChars cs = (n : ℚ) := by
  rw [ratOfChars_digits cs h1, h2]

/-- C2: parse_amount returns the maximum of its collected candidates (absent
    when there are none) — note the labeled-pattern candidates are collected
    unconditionally, only the bare-number scan discards non-positive values —
    and on "Qty 2 @ 50 = 100, Total 250" it returns 250, not 100 or 50. -/
theorem parse_amount_max_spec :
    (∀ text : String,
      (parse_amount text = none ↔ amounts_found text = [])
      ∧ ∀ v, parse_amount text = some v →
          v ∈ amounts_found text ∧ ∀ w ∈ amounts_found text, w ≤ v)
    ∧ parse_amount "Qty 2 @ 50 = 100, Total 250" = some 250 := by
  constructor
  · intro text
    unfold parse_amount
    cases h : amounts_found text with
    | nil => simp
    | cons x xs =>
      constructor
      · simp
      · intro v hv
        have hv2 : xs.foldl max x = v := Option.some.inj hv
        obtain ⟨hmem, hle, hall⟩ := foldl_max_spec xs x
        subst hv2
        constructor
        · rcases hmem with hm | hm
          · rw [hm]
            exact List.mem_cons_self x xs
          · exact List.mem_cons_of_mem x hm
        · intro w hw
          rcases List.mem_cons.mp hw with rfl | hw
          · exact hle
          · exact hall w hw
  · have h1 : labeled_amount_tokens "Qty 2 @ 50 = 100, Total 250"
        = [['2','5','0'], ['1','0','0']] := by decide
    have h2 : currency_amount_tokens "Qty 2 @ 50 = 100, Total 250"
        = [['2'], ['5','0'], ['1','0','0'], ['2','5','0']] := by decide
    have e2 : ratOfChars ['2'] = ((2 : Nat) : ℚ) := ratOfChars_eval _ 2 (by decide) (by decide)
    have e50 : ratOfChars ['5','0'] = ((50 : Nat) : ℚ) :=
      ratOfChars_eval _ 50 (by decide) (by decide)
    have e100 : ratOfChars ['1','0','0'] = ((100 : Nat) : ℚ) :=
      ratOfChars_eval _ 100 (by decide) (by decide)
    have e250 : ratOfChars ['2','5','0'] = ((250 : Nat) : ℚ) :=
      ratOfChars_eval _ 250 (by decide) (by decide)
    have ha : amounts_found "Qty 2 @ 50 = 100, Total 250"
        = [250, 100, 2, 50, 100, 250] := by
      unfold amounts_found
      rw [h1, h2]
      simp only [List.map_cons, List.map_nil, e2, e50, e100, e250, Nat.cast_ofNat]
      norm_num [List.filter_cons, List.filter_nil, decide_eq_true_eq]
    unfold parse_amount
    rw [ha]
    norm_num [List.foldl, max_def]

/-- C2 witness: the returned 250 is indeed among the collected candidates. -/
theorem parse_amount_max_spec_witness :
    (250 : ℚ) ∈ amounts_found "Qty 2 @ 50 = 100, Total 250" :=
  ((parse_amount_max_spec.1 "Qty 2 @ 50 = 100, Total 250").2 250 parse_amount_max_spec.2).1

/-- C2 counterexample: the claim says non-positive candidates are discarded
    and absence is returned when none remain, but for "Total 0" the labeled
    pattern's zero candidate is kept and parse_amount returns 0 instead of
    absent. -/
theorem parse_amount_zero_counterexample : parse_amount "Total 0" = some 0 := by
  have h1 : labeled_amount_tokens "Total 0" = [['0']] := by decide
  have h2 : currency_amount_tokens "Total 0" = [['0']] := by decide
  have e0 : ratOfChars ['0'] = ((0 : Nat) : ℚ) := ratOfChars_eval _ 0 (by decide) (by decide)
  have ha : amounts_found "Total 0" = [0] := by
    unfold amounts_found
    rw [h1, h2]
    simp only [List.map_cons, List.map_nil, e0, Nat.cast_zero]
    norm_num [List.filter_cons, List.filter_nil, decide_eq_true_eq]
  unfold parse_amount
  rw [ha]
  norm_num [List.foldl]

lemma exactFuzzyLoop_find (scorer : String → String → ℚ) (vd : String → Option Vendor)
    (names : List String) :
    ∀ (cands : List String) (acc : Option Vendor × ℚ) (c : String),
      cands.find? (fun s => decide (s ∈ names)) = some c →
      exactFuzzyLoop scorer vd names cands acc = .inl ⟨vd c, 100, "exact"⟩ := by
  intro cands
  induction cands with
  | nil => intro acc c h; simp at h
  | cons x rest ih =>
    intro acc c h
    obtain ⟨bm, bs⟩ := acc
    rw [List.find?_cons] at h
    by_cases hx : x ∈ names
    · rw [decide_eq_true hx] at h
      have hxc : x = c := Option.some.inj h
      subst hxc
      simp only [exactFuzzyLoop]
      rw [if_pos hx]
    · rw [decide_eq_false hx] at h
      have h2 : rest.find? (fun s => decide (s ∈ names)) = some c := h
      simp only [exactFuzzyLoop]
      rw [if_neg hx]
      split
      · exact ih (bm, bs) c h2
      · split
        · exact ih _ c h2
        · exact ih (bm, bs) c h2

/-- C3 amended: match_vendor_from_ocr tests each candidate for exact,
    case-SENSITIVE equality against the vendor names before any fuzzy
    scoring, and the first candidate that is literally a vendor name (the
    keyword-derived candidates having been upper-cased) returns immediately
    with that vendor, score 100 and match_kind exact, whatever the fuzzy
    scorers do; equality only up to letter case does not take this path. -/
theorem match_vendor_exact_first_spec (scorer pscorer : String → String → ℚ)
    (text : String) (vendors : List Vendor) (threshold : ℚ) (c : String)
    (h : (possible_vendor_texts text).find?
      (fun s => decide (s ∈ vendor_names vendors)) = some c) :
    match_vendor_from_ocr scorer pscorer text vendors threshold
      = ⟨vendor_dict vendors c, 100, "exact"⟩ := by
  have hc_names : c ∈ vendor_names vendors := by
    have hp := List.find?_some h
    exact of_decide_eq_true hp
  have hcands : possible_vendor_texts text ≠ [] := by
    intro hz
    rw [hz] at h
    simp at h
  have hnames : vendor_names vendors ≠ [] := List.ne_nil_of_mem hc_names
  have hvl : vendors ≠ [] := by
    rintro rfl
    simp [vendor_names] at hc_names
  have htext : ¬ text = "" := by
    rintro rfl
    exact hcands (by decide)
  unfold match_vendor_from_ocr
  rw [if_neg (by simp [htext, hvl]), if_neg hnames, if_neg hcands,
    exactFuzzyLoop_find scorer (vendor_dict vendors) (vendor_names vendors)
      (possible_vendor_texts text) (none, 0) c h]

/-- C3 amended witness: a candidate that equals a vendor name including case
    short-circuits to (vendor, 100, exact) even under a zero scorer. -/
theorem match_vendor_exact_first_spec_witness :
    match_vendor_from_ocr (fun _ _ => 0) (fun _ _ => 0) "Acme Corp" [⟨1, "Acme Corp"⟩] 80
      = ⟨vendor_dict [⟨1, "Acme Corp"⟩] "Acme Corp", 100, "exact"⟩ :=
  match_vendor_exact_first_spec (fun _ _ => 0) (fun _ _ => 0) "Acme Corp"
    [⟨1, "Acme Corp"⟩] 80 "Acme Corp" (by decide)

/-- C3 counterexample: the claim calls the immediate test "case-normalized"
    equality, under which the candidate line "acme corp" against the catalog
    entry "Acme Corp" would have to return (vendor, 100, exact); but the
    test is case-sensitive, the candidate falls through to the scorer-
    dependent fuzzy path, and with a zero scorer the matcher returns a miss
    instead. -/
theorem match_vendor_case_counterexample :
    match_vendor_from_ocr (fun _ _ => 0) (fun _ _ => 0) "acme corp" [⟨1, "Acme Corp"⟩] 80
      = ⟨none, 0, "no_match"⟩ := by decide

lemma extractOneAux_pred (scorer : String → String → ℚ) (q : String) (P : String → Prop) :
    ∀ (choices : List String) (acc : Option (String × ℚ)),
      (∀ b bs, acc = some (b, bs) → P b) → (∀ x ∈ choices, P x) →
      ∀ mn sc, extractOneAux scorer q choices acc = some (mn, sc) → P mn := by
  intro choices
  induction choices with
  | nil =>
    intro acc hacc _ mn sc h
    exact hacc mn sc h
  | cons x rest ih =>
    intro acc hacc hall mn sc h
    have hx : P x := hall x (List.mem_cons_self x rest)
    have hrest : ∀ y ∈ rest, P y := fun y hy => hall y (List.mem_cons_of_mem x hy)
    cases acc with
    | none =>
      exact ih (some (x, scorer q x)) (by rintro b bs ⟨rfl⟩; exact hx) hrest mn sc h
    | some p =>
      obtain ⟨b, bs⟩ := p
      have hb : P b := hacc b bs rfl
      simp only [extractOneAux] at h
      by_cases hgt : scorer q x > bs
      · rw [if_pos hgt] at h
        exact ih (some (x, scorer q x)) (by rintro b2 bs2 ⟨rfl⟩; exact hx) hrest mn sc h
      · rw [if_neg hgt] at h
        exact ih (some (b, bs)) (by rintro b2 bs2 ⟨rfl⟩; exact hb) hrest mn sc h

lemma extractOne_mem {scorer : String → String → ℚ} {q mn : String}
    {choices : List String} {sc : ℚ} (h : extractOne scorer q choices = some (mn, sc)) :
    mn ∈ choices :=
  extractOneAux_pred scorer q (fun s => s ∈ choices) choices none (by simp)
    (fun _ hx => hx) mn sc h

lemma vendor_dict_isSome {vs : List Vendor} {n : String} (h : n ∈ vendor_names vs) :
    (vendor_dict vs n).isSome = true := by
  obtain ⟨hmap, hne⟩ := List.mem_filter.mp h
  obtain ⟨v, hv, hvn⟩ := List.mem_map.mp hmap
  have hmem : v ∈ vs.filter (fun w => w.name == n) :=
    List.mem_filter.mpr ⟨hv, by simp [hvn]⟩
  have hne2 : vs.filter (fun w => w.name == n) ≠ [] := List.ne_nil_of_mem hmem
  unfold vendor_dict
  exact List.getLast?_isSome.mpr hne2

lemma exactFuzzyLoop_inl_type (scorer : String → String → ℚ) (vd : String → Option Vendor)
    (names : List String) :
    ∀ (cands : List String) (acc : Option Vendor × ℚ) (r : MatchResult),
      exactFuzzyLoop scorer vd names cands acc = .inl r → r.match_type = "exact" := by
  intro cands
  induction cands with
  | nil => intro acc r h; exact Sum.noConfusion h
  | cons x rest ih =>
    intro acc r h
    obtain ⟨bm, bs⟩ := acc
    simp only [exactFuzzyLoop] at h
    by_cases hx : x ∈ names
    · rw [if_pos hx] at h
      cases Sum.inl.inj h
      rfl
    · rw [if_neg hx] at h
      split at h
      · exact ih (bm, bs) r h
      · split at h
        · exact ih _ r h
        · exact ih (bm, bs) r h

lemma exactFuzzyLoop_inr_inv (scorer : String → String → ℚ) (vs : List Vendor) :
    ∀ (cands : List String) (acc : Option Vendor × ℚ),
      (acc.1 = none → acc.2 = 0) →
      ∀ bm bs, exactFuzzyLoop scorer (vendor_dict vs) (vendor_names vs) cands acc
        = .inr (bm, bs) → (bm = none → bs = 0) := by
  intro cands
  induction cands with
  | nil =>
    intro acc hinv bm bs h
    obtain ⟨a1, a2⟩ := acc
    cases Sum.inr.inj h
    exact hinv
  | cons x rest ih =>
    intro acc hinv bm bs h
    obtain ⟨a1, a2⟩ := acc
    simp only [exactFuzzyLoop] at h
    by_cases hx : x ∈ vendor_names vs
    · rw [if_pos hx] at h
      exact Sum.noConfusion h
    · rw [if_neg hx] at h
      split at h
      · exact ih (a1, a2) hinv bm bs h
      · rename_i mn sc he
        split at h
        · refine ih (vendor_dict vs mn, sc) ?_ bm bs h
          intro hnone
          have hnone2 : vendor_dict vs mn = none := hnone
          have hs := vendor_dict_isSome (extractOne_mem he)
          rw [hnone2] at hs
          exact Bool.noConfusion hs
        · exact ih (a1, a2) hinv bm bs h

lemma containNames_inv (pscorer : String → String → ℚ) (vs : List Vendor) (c : String) :
    ∀ (ns : List String), (∀ n ∈ ns, n ∈ vendor_names vs) →
      ∀ (acc : Option Vendor × ℚ), (acc.1 = none → acc.2 = 0) →
      ((containNames pscorer (vendor_dict vs) c ns acc).1 = none →
        (containNames pscorer (vendor_dict vs) c ns acc).2 = 0) := by
  intro ns
  induction ns with
  | nil => intro _ acc hinv; exact hinv
  | cons n rest ih =>
    intro hall acc hinv
    obtain ⟨a1, a2⟩ := acc
    have hn : n ∈ vendor_names vs := hall n (List.mem_cons_self n rest)
    have hrest : ∀ m ∈ rest, m ∈ vendor_names vs :=
      fun m hm => hall m (List.mem_cons_of_mem n hm)
    simp only [containNames]
    by_cases hcont : (hasSub (pyLowerL n.toList) (pyLowerL c.toList)
        || hasSub (pyLowerL c.toList) (pyLowerL n.toList)) = true
    · rw [if_pos hcont]
      by_cases hgt : pscorer c n > a2
      · rw [if_pos hgt]
        refine ih hrest (vendor_dict vs n, pscorer c n) ?_
        intro hnone
        have hnone2 : vendor_dict vs n = none := hnone
        have hs := vendor_dict_isSome hn
        rw [hnone2] at hs
        exact Bool.noConfusion hs
      · rw [if_neg hgt]
        exact ih hrest (a1, a2) hinv
    · rw [if_neg hcont]
      exact ih hrest (a1, a2) hinv

lemma containLoop_inv (pscorer : String → String → ℚ) (vs : List Vendor) :
    ∀ (cands : List String) (acc : Option Vendor × ℚ),
      (acc.1 = none → acc.2 = 0) →
      ((containLoop pscorer (vendor_dict vs) (vendor_names vs) cands acc).1 = none →
        (containLoop pscorer (vendor_dict vs) (vendor_names vs) cands acc).2 = 0) := by
  intro cands
  induction cands with
  | nil => intro acc hinv; exact hinv
  | cons c rest ih =>
    intro acc hinv
    simp only [containLoop]
    exact ih _ (containNames_inv pscorer vs c (vendor_names vs) (fun _ h => h) acc hinv)

/-- C9: whenever no pass of the matcher admits a candidate, the result is a
    data value, not an error: no vendor, the best score found (0 when no
    candidate ever scored) which is strictly below the threshold, and
    match_kind no_match. -/
theorem match_vendor_no_match_spec (scorer pscorer : String → String → ℚ)
    (text : String) (vendors : List Vendor) (threshold : ℚ) (hth : 0 < threshold)
    (h : (match_vendor_from_ocr scorer pscorer text vendors threshold).match_type
      = "no_match") :
    (match_vendor_from_ocr scorer pscorer text vendors threshold).vendor = none
      ∧ (match_vendor_from_ocr scorer pscorer text vendors threshold).score < threshold := by
  unfold match_vendor_from_ocr at h ⊢
  by_cases h1 : text = "" ∨ vendors = []
  · rw [if_pos h1]
    exact ⟨rfl, hth⟩
  · rw [if_neg h1] at h ⊢
    by_cases h2 : vendor_names vendors = []
    · rw [if_pos h2]
      exact ⟨rfl, hth⟩
    · rw [if_neg h2] at h ⊢
      by_cases h3 : possible_vendor_texts text = []
      · rw [if_pos h3]
        exact ⟨rfl, hth⟩
      · rw [if_neg h3] at h ⊢
        cases hef : exactFuzzyLoop scorer (vendor_dict vendors) (vendor_names vendors)
            (possible_vendor_texts text) (none, 0) with
        | inl r =>
          have htype := exactFuzzyLoop_inl_type scorer (vendor_dict vendors)
            (vendor_names vendors) (possible_vendor_texts text) (none, 0) r hef
          rw [hef] at h
          have h' : r.match_type = "no_match" := h
          rw [htype] at h'
          exact absurd h' (by decide)
        | inr p =>
          obtain ⟨bm, bs⟩ := p
          rw [hef] at h
          dsimp only at h ⊢
          have hinv1 : bm = none → bs = 0 :=
            exactFuzzyLoop_inr_inv scorer vendors (possible_vendor_texts text)
              (none, 0) (fun _ => rfl) bm bs hef
          by_cases hfz : bm.isSome = true ∧ bs ≥ threshold
          · rw [if_pos hfz] at h
            have h' : (if bs < 100 then "fuzzy" else "exact") = "no_match" := h
            by_cases hb : bs < 100
            · rw [if_pos hb] at h'
              exact absurd h' (by decide)
            · rw [if_neg hb] at h'
              exact absurd h' (by decide)
          · rw [if_neg hfz] at h ⊢
            rcases hcl : containLoop pscorer (vendor_dict vendors) (vendor_names vendors)
                (possible_vendor_texts text) (bm, bs) with ⟨bm2, bs2⟩
            rw [hcl] at h
            dsimp only at h
            have hinv2 : bm2 = none → bs2 = 0 := by
              intro hn
              have hcli := containLoop_inv pscorer vendors (possible_vendor_texts text)
                (bm, bs) hinv1
              rw [hcl] at hcli
              exact hcli hn
            by_cases hpt : bm2.isSome = true ∧ bs2 ≥ threshold
            · rw [if_pos hpt] at h
              have h' : "partial" = "no_match" := h
              exact absurd h' (by decide)
            · rw [if_neg hpt]
              refine ⟨rfl, ?_⟩
              cases hbm2 : bm2 with
              | none =>
                rw [hinv2 hbm2]
                exact hth
              | some v =>
                rcases not_and_or.mp hpt with hA | hB
                · rw [hbm2] at hA
                  exact absurd rfl hA
                · exact lt_of_not_ge hB

/-- C9 witness: a text resembling no vendor yields (absent, 0, no_match)
    with 0 below the default threshold 80. -/
theorem match_vendor_no_match_spec_witness :
    (match_vendor_from_ocr (fun _ _ => 0) (fun _ _ => 0) "zzz" [⟨1, "Acme"⟩] 80).vendor = none
      ∧ (match_vendor_from_ocr (fun _ _ => 0) (fun _ _ => 0) "zzz" [⟨1, "Acme"⟩] 80).score
        < 80 :=
  match_vendor_no_match_spec (fun _ _ => 0) (fun _ _ => 0) "zzz" [⟨1, "Acme"⟩] 80
    (by norm_num) (by decide)

lemma amount_flag_iff (stored ocr : BillData) (s o : ℚ) (hs : stored.amount = some s)
    (ho : ocr.amount = some o) (hs0 : s ≠ 0) (ho0 : o ≠ 0) :
    (∃ a b d, DiscrepancyEntry.amountD a b d ∈ (compare_bill_data stored ocr).discrepancies)
      ↔ |s - o| > 1 / 100 := by
  constructor
  · rintro ⟨a, b, d, hmem⟩
    rcases mem_compare_cases hmem with h | h | h
    · obtain ⟨_, _, hx, _⟩ := mem_bnEntries h
      exact DiscrepancyEntry.noConfusion hx
    · obtain ⟨a', b', _, hsa, hob, _, _, hgt⟩ := mem_amtEntries h
      rw [hs] at hsa
      rw [ho] at hob
      cases Option.some.inj hsa
      cases Option.some.inj hob
      exact hgt
    · obtain ⟨_, _, hx, _⟩ := mem_dateEntries h
      exact DiscrepancyEntry.noConfusion hx
  · intro hgt
    refine ⟨s, o, |s - o|, ?_⟩
    have hamt : amtEntries stored.amount ocr.amount = [.amountD s o |s - o|] := by
      rw [hs, ho]
      simp only [amtEntries]
      rw [if_pos ⟨hs0, ho0, hgt⟩]
    simp [compare_bill_data, hamt]

/-- C1 amended: on re-verification with an image and stored OCR text
    present, verify_bill_by_id re-runs the Field Extractor over the stored
    text, reconciles the form-submitted (now stored) fields against the
    fresh extraction with compare_bill_data — whose amount tolerance is the
    STRICT 0.01 profile, not the 5-unit profile — and transitions to
    discrepancy_found with a fully detailed audit entry exactly when the
    report is non-empty, else to verified with a clean audit entry. -/
theorem verify_bill_by_id_reverification_spec (bn : String) (amt : ℚ) (bd : PDate)
    (img txt : String) (himg : img ≠ "") (htxt : txt ≠ "") :
    ((verify_bill_by_id_post bn amt bd (some img) (some txt)).verification_status
      = (if (compare_bill_data (reverify_stored_data bn amt bd)
          (reverify_ocr_data txt)).has_discrepancy = true
         then "discrepancy_found" else "verified"))
    ∧ ((verify_bill_by_id_post bn amt bd (some img) (some txt)).status
      = (verify_bill_by_id_post bn amt bd (some img) (some txt)).verification_status)
    ∧ ((verify_bill_by_id_post bn amt bd (some img) (some txt)).audit
      = some ⟨"re_verification",
          (compare_bill_data (reverify_stored_data bn amt bd)
            (reverify_ocr_data txt)).has_discrepancy,
          (if (compare_bill_data (reverify_stored_data bn amt bd)
              (reverify_ocr_data txt)).has_discrepancy = true
           then some (compare_bill_data (reverify_stored_data bn amt bd)
              (reverify_ocr_data txt)).discrepancies
           else none),
          bn, (reverify_ocr_data txt).bill_number, amt, (reverify_ocr_data txt).amount⟩)
    ∧ (amt ≠ 0 → ∀ a, (reverify_ocr_data txt).amount = some a → a ≠ 0 →
        ((∃ s o d, DiscrepancyEntry.amountD s o d ∈
            (compare_bill_data (reverify_stored_data bn amt bd)
              (reverify_ocr_data txt)).discrepancies)
          ↔ |amt - a| > 1 / 100)) := by
  have hg : (truthyStr (some img) && truthyStr (some txt)) = true := by
    simp [truthyStr, himg, htxt]
  have key : verify_bill_by_id_post bn amt bd (some img) (some txt)
      = (if (compare_bill_data (reverify_stored_data bn amt bd)
            (reverify_ocr_data txt)).has_discrepancy = true then
          (⟨"discrepancy_found", "discrepancy_found",
            some ⟨"re_verification", true,
              some (compare_bill_data (reverify_stored_data bn amt bd)
                (reverify_ocr_data txt)).discrepancies,
              bn, (reverify_ocr_data txt).bill_number, amt,
              (reverify_ocr_data txt).amount⟩⟩ : VerifyByIdResult)
        else
          ⟨"verified", "verified",
            some ⟨"re_verification", false, none,
              bn, (reverify_ocr_data txt).bill_number, amt,
              (reverify_ocr_data txt).amount⟩⟩) := by
    unfold verify_bill_by_id_post
    rw [if_pos hg]
    rfl
  refine ⟨?_, ?_, ?_,
    fun hamt a ha ha0 => amount_flag_iff (reverify_stored_data bn amt bd)
      (reverify_ocr_data txt) amt a rfl ha hamt ha0⟩
  all_goals rw [key]
  all_goals by_cases hd : (compare_bill_data (reverify_stored_data bn amt bd)
      (reverify_ocr_data txt)).has_discrepancy = true
  all_goals simp [hd]

/-- C1 witness: with stored amount 103 and extracted text "Total 100"
    (fresh extraction 100), the amount is flagged under the 0.01 profile. -/
theorem verify_bill_by_id_reverification_spec_witness :
    ∃ s o d, DiscrepancyEntry.amountD s o d ∈
      (compare_bill_data (reverify_stored_data "B-1" 103 ⟨2024, 6, 1⟩)
        (reverify_ocr_data "Total 100")).discrepancies := by
  have habs : |(103 : ℚ) - 100| > 1 / 100 := by
    have h3 : (103 : ℚ) - 100 = 3 := by norm_num
    rw [h3, abs_of_nonneg (by norm_num : (0 : ℚ) ≤ 3)]
    norm_num
  exact ((verify_bill_by_id_reverification_spec "B-1" 103 ⟨2024, 6, 1⟩ "b.jpg" "Total 100"
    (by decide) (by decide)).2.2.2 (by norm_num) 100 (by decide) (by norm_num)).mpr habs

/-- C1 counterexample: the claim's 5-unit tolerance would accept a 3-unit
    gap (103 stored vs 100 re-extracted) and transition to verified, but the
    code flags it through the 0.01 tolerance of compare_bill_data and
    transitions to discrepancy_found. -/
theorem verify_bill_by_id_tolerance_counterexample :
    (verify_bill_by_id_post "B-1" 103 ⟨2024, 6, 1⟩ (some "b.jpg")
      (some "Total 100")).verification_status = "discrepancy_found"
    ∧ |(103 : ℚ) - 100| ≤ 5 := by
  constructor
  · have hocr : reverify_ocr_data "Total 100" = ⟨none, some 100, none⟩ := by decide
    have hamt : amtEntries (some 103) (some (100 : ℚ))
        = [.amountD 103 100 |(103 : ℚ) - 100|] := by
      simp only [amtEntries]
      rw [if_pos]
      refine ⟨by norm_num, by norm_num, ?_⟩
      have h3 : (103 : ℚ) - 100 = 3 := by norm_num
      rw [h3, abs_of_nonneg (by norm_num : (0 : ℚ) ≤ 3)]
      norm_num
    have hcmp : compare_bill_data (reverify_stored_data "B-1" 103 ⟨2024, 6, 1⟩)
        ⟨none, some 100, none⟩
        = ⟨true, [.amountD 103 100 |(103 : ℚ) - 100|]⟩ := by
      unfold compare_bill_data reverify_stored_data
      dsimp only
      rw [hamt]
      rfl
    unfold verify_bill_by_id_post
    rw [if_pos (by decide : (truthyStr (some "b.jpg")
      && truthyStr (some "Total 100")) = true)]
    dsimp only [Option.getD]
    rw [hocr, hcmp]
    rfl
  · have h3 : (103 : ℚ) - 100 = 3 := by norm_num
    rw [h3, abs_of_nonneg (by norm_num : (0 : ℚ) ≤ 3)]
    norm_num

/-- C8: final adjudication — approve marks the bill verified changing no
    other field, correct applies the reviewer's overrides and marks it
    verified, reject marks it rejected, and every action appends a
    verification-log entry with the reviewer id, the outcome label, the
    mismatches detected against the FINAL stored values, and the remarks. -/
theorem verify_ocr_bill_final_actions_spec (bill : BillRec) (link : Option String)
    (uid : Nat) (remarks : String) (cb : Option String) (ca : Option ℚ)
    (cd : Option PDate) :
    (∃ out, verify_ocr_bill_final bill link uid ⟨"approve", remarks, cb, ca, cd⟩ = some out
      ∧ out.bill = { bill with verification_status := "verified" }
      ∧ out.log = ⟨uid, "Verified", mismatchField out.bill link, remarks⟩)
    ∧ (∃ out, verify_ocr_bill_final bill link uid ⟨"correct", remarks, cb, ca, cd⟩ = some out
      ∧ out.bill = { bill with
          bill_number := cb.getD bill.bill_number,
          amount := ca.getD bill.amount,
          bill_date := cd.getD bill.bill_date,
          verification_status := "verified" }
      ∧ out.log = ⟨uid, "Corrected", mismatchField out.bill link, remarks⟩)
    ∧ (∃ out, verify_ocr_bill_final bill link uid ⟨"reject", remarks, cb, ca, cd⟩ = some out
      ∧ out.bill = { bill with verification_status := "rejected" }
      ∧ out.log = ⟨uid, "Rejected", mismatchField out.bill link, remarks⟩) := by
  refine ⟨⟨_, rfl, rfl, rfl⟩, ?_, ⟨_, rfl, rfl, rfl⟩⟩
  have hb1 : (match cb with
      | some s => if s ≠ bill.bill_number then { bill with bill_number := s } else bill
      | none => bill) = { bill with bill_number := cb.getD bill.bill_number } := by
    cases cb with
    | none => rfl
    | some s =>
      dsimp only
      by_cases hsb : s ≠ bill.bill_number
      · rw [if_pos hsb, Option.getD_some]
      · rw [if_neg hsb]
        have hs2 : s = bill.bill_number := not_not.mp hsb
        rw [Option.getD_some, hs2]
  have key : verify_ocr_bill_final bill link uid ⟨"correct", remarks, cb, ca, cd⟩
      = some ⟨{ bill with
          bill_number := cb.getD bill.bill_number,
          amount := ca.getD bill.amount,
          bill_date := cd.getD bill.bill_date,
          verification_status := "verified" },
        ⟨uid, "Corrected", mismatchField { bill with
          bill_number := cb.getD bill.bill_number,
          amount := ca.getD bill.amount,
          bill_date := cd.getD bill.bill_date,
          verification_status := "verified" } link, remarks⟩⟩ := by
    unfold verify_ocr_bill_final
    dsimp only
    rw [if_neg (by decide : ¬ "correct" = "approve"), if_pos rfl]
    rw [hb1]
    cases ca <;> cases cd <;> rfl
  exact ⟨_, key, rfl, rfl⟩

end Skanda
